import Mathlib

/-!
# Verification of depthlog (depth-aware logging helpers)

Shallow embedding of `src/include/depthlog/depthlog.hpp`:

* the thread-local depth counter `g_depth` and the RAII `Scope` guard
  (constructor `++g_depth`, destructor `if (g_depth > 0) --g_depth`),
* the `%D` custom pattern flag `depth_flag` (formats the current depth in
  decimal via `fmt::format_to(dest, "{}", g_depth)`),
* the indenting decorator sink `stderr_indent_color_sink_mt::log`
  (fast path / slow path, chunked space copy, ANSI color table),
* the default logfmt pattern strings of `install_depth_flag` and
  `make_logfmt_formatter`, and a model of the pattern engine's
  percent-token substitution.

All state is made explicit: the thread-local counter becomes an `Int`
argument threaded through the functions, and `spdlog::memory_buf_t`
becomes `List Char`.
-/

namespace Depthlog

/-! ## 4.1/4.2 Depth counter and scope guard

`inline thread_local int g_depth = 0;` — one `Int` per thread, initially 0.
A `Scope` construction runs `++g_depth`; its destruction runs
`if (g_depth > 0) --g_depth;`.  One thread's sequence of guard
constructions and destructions is a list of operations folded over the
counter. -/

/-- Initial value of the thread-local counter `g_depth`. -/
def g_depth_init : Int := 0

/-- Constructor body of `Scope`: `++g_depth`. -/
def scope_construct (d : Int) : Int := d + 1

/-- Destructor body of `Scope`: `if (g_depth > 0) --g_depth;`. -/
def scope_destruct (d : Int) : Int := if d > 0 then d - 1 else d

/-- One guard event on a thread: a `Scope` construction or destruction. -/
inductive Op : Type
  | construct : Op
  | destruct : Op
deriving DecidableEq, Repr

/-- Effect of one guard event on the thread's counter. -/
def step (d : Int) : Op → Int
  | Op.construct => scope_construct d
  | Op.destruct => scope_destruct d

/-- Running a sequence of guard events over the thread's counter. -/
def run (d : Int) (ops : List Op) : Int := ops.foldl step d

/-- Predicate `WellNested n ops`: `ops` is a well-nested (LIFO, balanced) sequence of
guard events given `n` currently open guards, ending with all `n` closed.
`WellNested 0 ops` is the usual notion of a balanced well-nested trace. -/
inductive WellNested : Nat → List Op → Prop
  | nil : WellNested 0 []
  | construct {n : Nat} {ops : List Op} :
      WellNested (n + 1) ops → WellNested n (Op.construct :: ops)
  | destruct {n : Nat} {ops : List Op} :
      WellNested n ops → WellNested (n + 1) (Op.destruct :: ops)

/-- Predicate `ExactSteps d ops`: along the run of `ops` from depth `d`, every
construction changes the counter by exactly `+1` and every destruction by
exactly `-1` (i.e. the destructor's zero-clamp never fires). -/
def ExactSteps : Int → List Op → Prop
  | _, [] => True
  | d, Op.construct :: ops =>
      step d Op.construct = d + 1 ∧ ExactSteps (step d Op.construct) ops
  | d, Op.destruct :: ops =>
      step d Op.destruct = d - 1 ∧ ExactSteps (step d Op.destruct) ops

theorem run_nil (d : Int) : run d [] = d := rfl

theorem run_cons (d : Int) (op : Op) (ops : List Op) :
    run d (op :: ops) = run (step d op) ops := rfl

/-- Generalized balance lemma: a trace that is well-nested at level `n`,
run from depth `b + n` with `b ≥ 0`, ends at depth `b`, and every event
moves the counter by exactly one. -/
theorem wellNested_run {n : Nat} {ops : List Op} (hw : WellNested n ops) :
    ∀ b : Int, 0 ≤ b → run (b + n) ops = b ∧ ExactSteps (b + n) ops := by
  induction hw with
  | nil =>
      intro b _
      simp [run, ExactSteps]
  | @construct n ops _ ih =>
      intro b hb
      rcases ih b hb with ⟨h1, h2⟩
      constructor
      · rw [run_cons]
        have : step (b + ↑n) Op.construct = b + (↑n + 1) := by
          simp [step, scope_construct]; ring
        rw [this]
        have : b + ((n : Int) + 1) = b + ((n + 1 : Nat) : Int) := by push_cast; ring
        rw [this]
        exact h1
      · refine ⟨rfl, ?_⟩
        have : step (b + ↑n) Op.construct = b + ((n + 1 : Nat) : Int) := by
          simp [step, scope_construct]; ring
        rw [this]
        exact h2
  | @destruct n ops _ ih =>
      intro b hb
      rcases ih b hb with ⟨h1, h2⟩
      have hpos : (0 : Int) < b + ((n + 1 : Nat) : Int) := by push_cast; omega
      have hstep : step (b + ((n + 1 : Nat) : Int)) Op.destruct = b + (n : Int) := by
        simp only [step, scope_destruct, if_pos hpos]
        push_cast
        ring
      constructor
      · rw [run_cons, hstep]
        exact h1
      · refine ⟨?_, ?_⟩
        · simp only [step, scope_destruct, if_pos hpos]
        · rw [hstep]
          exact h2

/-- C1: for any well-nested sequence of `Scope` constructions/destructions on
one thread starting from any (reachable, hence nonnegative) baseline depth,
every construction is exactly `+1`, every destruction exactly `-1`, and the
depth after the whole sequence equals the baseline. -/
theorem scope_wellNested_roundtrip (ops : List Op) (b : Int)
    (hw : WellNested 0 ops) (hb : 0 ≤ b) :
    run b ops = b ∧ ExactSteps b ops := by
  have h := wellNested_run hw b hb
  simpa using h

/-- Witness for C1: the concrete nested trace
construct, construct, destruct, destruct from baseline 2 round-trips to 2
with every step exact. -/
theorem scope_wellNested_roundtrip_witness :
    run 2 [Op.construct, Op.construct, Op.destruct, Op.destruct] = 2 ∧
      ExactSteps 2 [Op.construct, Op.construct, Op.destruct, Op.destruct] :=
  scope_wellNested_roundtrip
    [Op.construct, Op.construct, Op.destruct, Op.destruct] 2
    (WellNested.construct (WellNested.construct
      (WellNested.destruct (WellNested.destruct WellNested.nil))))
    (by decide)

/-- The counter never becomes negative: one step preserves nonnegativity. -/
theorem step_nonneg {d : Int} (hd : 0 ≤ d) (op : Op) : 0 ≤ step d op := by
  cases op with
  | construct => simp only [step, scope_construct]; omega
  | destruct =>
      simp only [step, scope_destruct]
      split <;> omega

theorem run_nonneg (ops : List Op) : ∀ d : Int, 0 ≤ d → 0 ≤ run d ops := by
  induction ops with
  | nil => intro d hd; simpa [run] using hd
  | cons op ops ih =>
      intro d hd
      rw [run_cons]
      exact ih _ (step_nonneg hd op)

/-- C2: starting from the initial thread-local value 0, no sequence of
`Scope` constructions/destructions ever drives the counter negative, and a
destruction at depth 0 is a silent no-op leaving the counter at 0. -/
theorem depth_never_negative (ops : List Op) :
    0 ≤ run g_depth_init ops ∧ step 0 Op.destruct = 0 :=
  ⟨run_nonneg ops g_depth_init (by decide), by decide⟩

/-! ## External record types (consumed, fields only read/rewritten)

`spdlog::details::log_msg` carries logger name, level, time, thread id,
source location (file, line, funcname), color range markers and the
payload; `std::tm` is the broken-down time handed to pattern flags. -/

/-- Model of `std::tm` (the fields the formatter could read). -/
structure Tm where
  tm_sec : Nat
  tm_min : Nat
  tm_hour : Nat
  tm_mday : Nat
  tm_mon : Nat
  tm_year : Int
deriving DecidableEq, Repr

/-- Model of `spdlog::source_loc`: file name, line, function name. -/
structure SourceLoc where
  filename : List Char
  line : Nat
  funcname : List Char
deriving DecidableEq, Repr

/-- Model of `spdlog::details::log_msg`. -/
structure LogMsg where
  logger_name : List Char
  level : Nat
  time : Int
  thread_id : Nat
  source : SourceLoc
  color_range_start : Nat
  color_range_end : Nat
  payload : List Char
deriving DecidableEq, Repr

/-! ## 4.3 Depth field formatter (`%D`)

`depth_flag::format` runs `fmt::format_to(back_inserter(dest), "{}", g_depth)`:
it appends the decimal representation of the current thread-local depth to
the destination buffer, reading nothing from the record or the time struct.
`clone()` default-constructs a fresh instance (the class has no members). -/

/-- Decimal digit emission as `fmt` performs it for a nonnegative integer:
most significant digit first, ASCII digits `0x30 + digit`. -/
def natDecDigits (n : Nat) : List Char :=
  if _h : n < 10 then [Char.ofNat (48 + n)]
  else natDecDigits (n / 10) ++ [Char.ofNat (48 + n % 10)]
decreasing_by exact Nat.div_lt_self (by omega) (by omega)

/-- Output of `fmt::format_to(dest, "{}", d)` for a C++ `int` value `d`: decimal
digits, prefixed with a minus sign when negative. -/
def intDecimal (d : Int) : List Char :=
  if d < 0 then '-' :: natDecDigits (-d).toNat else natDecDigits d.toNat

/-- The `depth_flag` class: a `spdlog::custom_flag_formatter` with no
member state. -/
structure depth_flag where
deriving DecidableEq, Repr

/-- Method `depth_flag::format(msg, tm, dest)`: appends the current thread-local
depth in decimal to `dest`.  The thread-local `g_depth` read at render time
is passed explicitly. -/
def depth_flag.format (_self : depth_flag) (_msg : LogMsg) (_t : Tm)
    (g_depth : Int) (dest : List Char) : List Char :=
  dest ++ intDecimal g_depth

/-- Method `depth_flag::clone()`: `make_unique<depth_flag>()`, a fresh stateless
instance. -/
def depth_flag.clone (_self : depth_flag) : depth_flag := {}

/-! Specification-side characterization of "the decimal string
representation": every character is an ASCII digit, parsing the string
back in base 10 recovers the number, and there is no leading zero (except
for the number 0 itself, rendered as the single digit "0"). -/

/-- Predicate: `c` is an ASCII decimal digit. -/
def IsDigitChar (c : Char) : Prop := '0' ≤ c ∧ c ≤ '9'

instance (c : Char) : Decidable (IsDigitChar c) := by
  unfold IsDigitChar; infer_instance

/-- Base-10 value of a digit string (specification-side). -/
def parseDecimal (s : List Char) : Nat :=
  s.foldl (fun a c => a * 10 + (c.toNat - 48)) 0

theorem natDecDigits_of_lt {n : Nat} (h : n < 10) :
    natDecDigits n = [Char.ofNat (48 + n)] := by
  rw [natDecDigits]
  simp [h]

theorem natDecDigits_of_ge {n : Nat} (h : ¬ n < 10) :
    natDecDigits n = natDecDigits (n / 10) ++ [Char.ofNat (48 + n % 10)] := by
  rw [natDecDigits]
  simp [h]

theorem toNat_digitChar {k : Nat} (h : k < 10) :
    (Char.ofNat (48 + k)).toNat = 48 + k := by
  interval_cases k <;> decide

theorem isDigitChar_digitChar {k : Nat} (h : k < 10) :
    IsDigitChar (Char.ofNat (48 + k)) := by
  interval_cases k <;> decide

theorem parseDecimal_append_digit (l : List Char) (c : Char) :
    parseDecimal (l ++ [c]) = parseDecimal l * 10 + (c.toNat - 48) := by
  simp [parseDecimal, List.foldl_append]

theorem natDecDigits_ne_nil (n : Nat) : natDecDigits n ≠ [] := by
  by_cases h : n < 10
  · rw [natDecDigits_of_lt h]; simp
  · rw [natDecDigits_of_ge h]; simp

/-- Digits `natDecDigits n` are exactly the canonical decimal representation of
`n`: all digits, parses back to `n`, no leading zero unless `n = 0`. -/
theorem natDecDigits_correct (n : Nat) :
    (∀ c ∈ natDecDigits n, IsDigitChar c) ∧
      parseDecimal (natDecDigits n) = n ∧
      (n ≠ 0 → (natDecDigits n).head? ≠ some '0') := by
  induction n using Nat.strong_induction_on with
  | _ n ih =>
    by_cases h : n < 10
    · rw [natDecDigits_of_lt h]
      refine ⟨?_, ?_, ?_⟩
      · intro c hc
        simp only [List.mem_singleton] at hc
        subst hc
        exact isDigitChar_digitChar h
      · simp [parseDecimal, toNat_digitChar h]
      · intro hn hhead
        simp only [List.head?_cons, Option.some_inj] at hhead
        have : (Char.ofNat (48 + n)).toNat = ('0' : Char).toNat := by rw [hhead]
        rw [toNat_digitChar h] at this
        have h48 : ('0' : Char).toNat = 48 := by decide
        omega
    · have hdiv : n / 10 < n := Nat.div_lt_self (by omega) (by omega)
      obtain ⟨ihd, ihp, ihz⟩ := ih (n / 10) hdiv
      rw [natDecDigits_of_ge h]
      have hmod : n % 10 < 10 := Nat.mod_lt _ (by omega)
      refine ⟨?_, ?_, ?_⟩
      · intro c hc
        rcases List.mem_append.mp hc with hc | hc
        · exact ihd c hc
        · simp only [List.mem_singleton] at hc
          subst hc
          exact isDigitChar_digitChar hmod
      · rw [parseDecimal_append_digit, ihp, toNat_digitChar hmod]
        omega
      · intro _ hhead
        obtain ⟨a, l, hl⟩ := List.exists_cons_of_ne_nil (natDecDigits_ne_nil (n / 10))
        rw [hl] at hhead
        simp only [List.cons_append, List.head?_cons] at hhead
        have hz := ihz (by omega)
        rw [hl] at hz
        simp only [List.head?_cons] at hz
        exact hz hhead

/-- C3: the depth field formatter appends to the destination buffer exactly
the canonical decimal string of the thread's depth as it stands at the
moment of rendering (the `g_depth` argument), independent of the record;
at depths 0 and 1 the emitted tokens are `"0"` and `"1"`. -/
theorem depth_flag_format_emits_render_time_depth
    (fl : depth_flag) (msg : LogMsg) (t : Tm) (d : Int) (dest : List Char)
    (hd : 0 ≤ d) :
    depth_flag.format fl msg t d dest = dest ++ natDecDigits d.toNat ∧
      (∀ c ∈ natDecDigits d.toNat, IsDigitChar c) ∧
      parseDecimal (natDecDigits d.toNat) = d.toNat ∧
      (d ≠ 0 → (natDecDigits d.toNat).head? ≠ some '0') ∧
      depth_flag.format fl msg t 0 dest = dest ++ ['0'] ∧
      depth_flag.format fl msg t 1 dest = dest ++ ['1'] := by
  obtain ⟨h1, h2, h3⟩ := natDecDigits_correct d.toNat
  refine ⟨?_, h1, h2, ?_, ?_, ?_⟩
  · simp [depth_flag.format, intDecimal, not_lt.mpr hd]
  · intro hdz
    exact h3 (by omega)
  · simp [depth_flag.format, intDecimal, natDecDigits_of_lt (by omega : (0:Nat) < 10)]
  · simp [depth_flag.format, intDecimal, natDecDigits_of_lt (by omega : (1:Nat) < 10)]

/-- A concrete record used to instantiate theorems with hypotheses. -/
def sampleMsg : LogMsg :=
  { logger_name := []
    level := 2
    time := 0
    thread_id := 7
    source := { filename := [], line := 0, funcname := [] }
    color_range_start := 0
    color_range_end := 0
    payload := [] }

/-- A concrete broken-down time used to instantiate theorems. -/
def sampleTm : Tm :=
  { tm_sec := 0, tm_min := 0, tm_hour := 0, tm_mday := 1, tm_mon := 0, tm_year := 126 }

/-- Witness for C3 at depth 3 and empty destination buffer. -/
theorem depth_flag_format_emits_render_time_depth_witness :
    0 ≤ (3 : Int) ∧
      (depth_flag.format {} sampleMsg sampleTm 3 [] = [] ++ natDecDigits (3 : Int).toNat ∧
        (∀ c ∈ natDecDigits (3 : Int).toNat, IsDigitChar c) ∧
        parseDecimal (natDecDigits (3 : Int).toNat) = (3 : Int).toNat ∧
        ((3 : Int) ≠ 0 → (natDecDigits (3 : Int).toNat).head? ≠ some '0') ∧
        depth_flag.format {} sampleMsg sampleTm 0 [] = [] ++ ['0'] ∧
        depth_flag.format {} sampleMsg sampleTm 1 [] = [] ++ ['1']) :=
  ⟨by decide,
    depth_flag_format_emits_render_time_depth {} sampleMsg sampleTm 3 [] (by decide)⟩

/-- C9: the bytes appended by `depth_flag::format` are fully determined by
the current thread-local depth — identical for any two records, any two
time structs, any two formatter instances, and for any clone produced by
`clone()`. -/
theorem depth_flag_format_noninterference
    (f1 f2 : depth_flag) (m1 m2 : LogMsg) (t1 t2 : Tm) (d : Int)
    (dest : List Char) :
    depth_flag.format f1 m1 t1 d dest = depth_flag.format f2 m2 t2 d dest ∧
      depth_flag.format (depth_flag.clone f1) m1 t1 d dest =
        depth_flag.format f1 m1 t1 d dest :=
  ⟨rfl, rfl⟩

/-! ## 4.4 Indenting decorator sink (`stderr_indent_color_sink_mt`)

Sink state: `spaces_per_depth_ : std::size_t` and
`fn_color_code_ : std::string`.  `log(msg)` reads the current thread-local
depth, computes the indent, takes a fast path (forward unmodified) or
builds a buffer of spaces + colorized function name + payload and forwards
a shallow copy with only the payload swapped.  We model the forwarded
record (the argument passed to the wrapped
`ansicolor_stderr_sink_mt::log`) as the function's result. -/

/-- ANSI SGR reset escape: the `reset` member of the wrapped
`ansicolor_sink` base class appended after the function name. -/
def resetCode : List Char := "\x1b[m".toList

/-- Name-to-escape chain of `append_ansi_color_code_`: returns the SGR
escape for the sixteen supported names, `none` for unknown or empty. -/
def ansi_code_for (name : List Char) : Option (List Char) :=
  if name = "black".toList then some ("\x1b[30m".toList)
  else if name = "red".toList then some ("\x1b[31m".toList)
  else if name = "green".toList then some ("\x1b[32m".toList)
  else if name = "yellow".toList then some ("\x1b[33m".toList)
  else if name = "blue".toList then some ("\x1b[34m".toList)
  else if name = "magenta".toList then some ("\x1b[35m".toList)
  else if name = "cyan".toList then some ("\x1b[36m".toList)
  else if name = "white".toList then some ("\x1b[37m".toList)
  else if name = "bright_black".toList then some ("\x1b[90m".toList)
  else if name = "bright_red".toList then some ("\x1b[91m".toList)
  else if name = "bright_green".toList then some ("\x1b[92m".toList)
  else if name = "bright_yellow".toList then some ("\x1b[93m".toList)
  else if name = "bright_blue".toList then some ("\x1b[94m".toList)
  else if name = "bright_magenta".toList then some ("\x1b[95m".toList)
  else if name = "bright_cyan".toList then some ("\x1b[96m".toList)
  else if name = "bright_white".toList then some ("\x1b[97m".toList)
  else none

/-- Helper `append_ansi_color_code_(buf, name)`: appends the escape if the name is
known, otherwise leaves the buffer untouched. -/
def append_ansi_color_code_ (buf : List Char) (name : List Char) : List Char :=
  match ansi_code_for name with
  | none => buf
  | some code => buf ++ code

/-- The chunked space-copy loop in `log`: `kSpaces` is a `char[64]`
holding 63 spaces, each iteration appends
`min remaining (sizeof(kSpaces) - 1) = min remaining 63` spaces. -/
def append_spaces_loop (buf : List Char) (remaining : Nat) : List Char :=
  if _h : remaining = 0 then buf
  else
    append_spaces_loop
      (buf ++ List.replicate (if remaining > 63 then 63 else remaining) ' ')
      (remaining - (if remaining > 63 then 63 else remaining))
termination_by remaining
decreasing_by split <;> omega

/-- Computed indent: `(d > 0) ? d * spaces_per_depth_ : 0`. -/
def indentOf (spaces_per_depth : Nat) (d : Int) : Nat :=
  if d > 0 then d.toNat * spaces_per_depth else 0

/-- The buffer built in the slow path of `log`:
spaces, then (if a function name is present) color escape + function name +
reset + `": "`, then the original payload. -/
def indent_buffer (spaces_per_depth : Nat) (fn_color_code : List Char)
    (d : Int) (msg : LogMsg) : List Char :=
  let indent := indentOf spaces_per_depth d
  let fn := msg.source.funcname
  let has_fn := fn.length > 0
  let buf : List Char := []
  let buf := if indent ≠ 0 then append_spaces_loop buf indent else buf
  let buf := if has_fn then
      append_ansi_color_code_ buf fn_color_code ++ fn ++ resetCode ++ [':', ' ']
    else buf
  buf ++ msg.payload

/-- Method `stderr_indent_color_sink_mt::log(msg)`: the record handed to the
wrapped `ansicolor_stderr_sink_mt::log`.  `d` is the thread-local depth
read via `depthlog::depth()` at the start of the call. -/
def sink_log (spaces_per_depth : Nat) (fn_color_code : List Char)
    (d : Int) (msg : LogMsg) : LogMsg :=
  let indent := indentOf spaces_per_depth d
  let has_fn := msg.source.funcname.length > 0
  if indent = 0 ∧ ¬ has_fn then msg
  else { msg with payload := indent_buffer spaces_per_depth fn_color_code d msg }

/-- The space loop appends exactly `remaining` spaces. -/
theorem append_spaces_loop_eq (remaining : Nat) :
    ∀ buf : List Char,
      append_spaces_loop buf remaining = buf ++ List.replicate remaining ' ' := by
  induction remaining using Nat.strong_induction_on with
  | _ remaining ih =>
    intro buf
    by_cases h : remaining = 0
    · subst h
      unfold append_spaces_loop
      simp
    · unfold append_spaces_loop
      simp only [h, dite_false]
      have hn : (if remaining > 63 then 63 else remaining) ≤ remaining ∧
          1 ≤ (if remaining > 63 then 63 else remaining) := by
        split <;> omega
      rw [ih (remaining - (if remaining > 63 then 63 else remaining)) (by omega)]
      rw [List.append_assoc, ← List.replicate_add]
      congr 2
      omega

/-- The color escape contributed for a color name: the table entry when
the name is known, nothing otherwise. -/
def fn_color_start (name : List Char) : List Char :=
  (ansi_code_for name).getD []

/-- The function-name decoration contributed by the slow path: color
escape (when the color name is known) + function name + reset + `": "`;
empty when the record has no function name. -/
def fn_decoration (fn_color_code : List Char) (fn : List Char) : List Char :=
  if fn.length > 0 then
    fn_color_start fn_color_code ++ fn ++ resetCode ++ [':', ' ']
  else []

theorem append_ansi_color_code_eq (buf name : List Char) :
    append_ansi_color_code_ buf name = buf ++ fn_color_start name := by
  unfold append_ansi_color_code_ fn_color_start
  cases h : ansi_code_for name <;> simp [h]

/-- Decomposition of the slow-path buffer. -/
theorem indent_buffer_eq (spaces_per_depth : Nat) (fn_color_code : List Char)
    (d : Int) (msg : LogMsg) :
    indent_buffer spaces_per_depth fn_color_code d msg =
      List.replicate (indentOf spaces_per_depth d) ' ' ++
        fn_decoration fn_color_code msg.source.funcname ++ msg.payload := by
  unfold indent_buffer fn_decoration
  by_cases hind : indentOf spaces_per_depth d = 0
  · by_cases hfn : msg.source.funcname.length > 0
    · simp [hind, hfn, append_ansi_color_code_eq]
    · simp [hind, hfn]
  · by_cases hfn : msg.source.funcname.length > 0
    · simp [hind, hfn, append_spaces_loop_eq, append_ansi_color_code_eq]
    · simp [hind, hfn, append_spaces_loop_eq]

/-- C4: the payload forwarded by the sink always decomposes as
`d * spaces_per_depth` spaces (for `d > 0`; zero spaces otherwise),
then the function-name decoration, then the original payload; in
particular `spaces_per_depth = 4` at depth 3 prepends exactly 12 spaces,
and depth 0 prepends none. -/
theorem sink_log_indent_math (spaces_per_depth : Nat) (fn_color_code : List Char)
    (d : Int) (msg : LogMsg) :
    (sink_log spaces_per_depth fn_color_code d msg).payload =
        List.replicate (if d > 0 then d.toNat * spaces_per_depth else 0) ' ' ++
          fn_decoration fn_color_code msg.source.funcname ++ msg.payload ∧
      (sink_log 4 fn_color_code 3 msg).payload =
        List.replicate 12 ' ' ++
          fn_decoration fn_color_code msg.source.funcname ++ msg.payload ∧
      (sink_log 4 fn_color_code 0 msg).payload =
        fn_decoration fn_color_code msg.source.funcname ++ msg.payload := by
  have key : ∀ (spd : Nat) (e : Int),
      (sink_log spd fn_color_code e msg).payload =
        List.replicate (indentOf spd e) ' ' ++
          fn_decoration fn_color_code msg.source.funcname ++ msg.payload := by
    intro spd e
    unfold sink_log
    by_cases hc : indentOf spd e = 0 ∧ ¬ msg.source.funcname.length > 0
    · obtain ⟨h1, h2⟩ := hc
      simp [h1, h2, fn_decoration]
    · simp only [hc, if_false]
      exact indent_buffer_eq spd fn_color_code e msg
  refine ⟨key spaces_per_depth d, ?_, ?_⟩
  · have h := key 4 3
    have : indentOf 4 3 = 12 := by decide
    rwa [this] at h
  · have h := key 4 0
    have : indentOf 4 0 = 0 := by decide
    rw [this] at h
    simpa using h

/-! Specification-side description of the slow path (spec §4.4 step 4):
a sixteen-entry named-color table, and the payload as a single
concatenation. -/

/-- The sixteen-entry named-color table as the spec lists it: the eight
standard SGR colors and their `bright_` variants. -/
def spec_color_table : List (List Char × List Char) :=
  [("black".toList, "\x1b[30m".toList),
   ("red".toList, "\x1b[31m".toList),
   ("green".toList, "\x1b[32m".toList),
   ("yellow".toList, "\x1b[33m".toList),
   ("blue".toList, "\x1b[34m".toList),
   ("magenta".toList, "\x1b[35m".toList),
   ("cyan".toList, "\x1b[36m".toList),
   ("white".toList, "\x1b[37m".toList),
   ("bright_black".toList, "\x1b[90m".toList),
   ("bright_red".toList, "\x1b[91m".toList),
   ("bright_green".toList, "\x1b[92m".toList),
   ("bright_yellow".toList, "\x1b[93m".toList),
   ("bright_blue".toList, "\x1b[94m".toList),
   ("bright_magenta".toList, "\x1b[95m".toList),
   ("bright_cyan".toList, "\x1b[96m".toList),
   ("bright_white".toList, "\x1b[97m".toList)]

/-- Spec-side color-start selection: look the configured name up in the
sixteen-entry table; unknown or empty names contribute no code. -/
def spec_color_start (name : List Char) : List Char :=
  match spec_color_table.lookup name with
  | some code => code
  | none => []

/-- Spec-side slow-path payload: indent spaces; then, iff a function name
is present, color-start + function name + reset + `": "`; then the
original payload bytes. -/
def spec_slow_payload (spaces_per_depth : Nat) (fn_color_code : List Char)
    (d : Int) (msg : LogMsg) : List Char :=
  List.replicate (indentOf spaces_per_depth d) ' ' ++
    (if msg.source.funcname ≠ [] then
      spec_color_start fn_color_code ++ msg.source.funcname ++ resetCode ++
        ": ".toList
    else []) ++ msg.payload

/-- Unfolding of association-list lookup with propositional equality. -/
theorem lookup_cons_ite {β : Type}
    (a k : List Char) (v : β) (l : List (List Char × β)) :
    List.lookup a ((k, v) :: l) = if a = k then some v else List.lookup a l := by
  by_cases h : a = k
  · subst h; simp [List.lookup]
  · have hb : (a == k) = false := beq_eq_false_iff_ne.mpr h
    simp [List.lookup, hb, h]

/-- The code's if-chain agrees with lookup in the spec's table. -/
theorem ansi_code_for_eq_lookup (name : List Char) :
    ansi_code_for name = spec_color_table.lookup name := by
  unfold ansi_code_for spec_color_table
  rw [lookup_cons_ite, lookup_cons_ite, lookup_cons_ite, lookup_cons_ite,
    lookup_cons_ite, lookup_cons_ite, lookup_cons_ite, lookup_cons_ite,
    lookup_cons_ite, lookup_cons_ite, lookup_cons_ite, lookup_cons_ite,
    lookup_cons_ite, lookup_cons_ite, lookup_cons_ite, lookup_cons_ite]
  simp only [List.lookup]

theorem fn_color_start_eq_spec (name : List Char) :
    fn_color_start name = spec_color_start name := by
  unfold fn_color_start spec_color_start
  rw [ansi_code_for_eq_lookup]
  cases spec_color_table.lookup name <;> simp

/-- C5: on the slow path (nonzero indent or a function name present), the
rewritten payload is exactly: indent spaces, then — iff a function name is
present — the color-start code selected from the sixteen-entry named-color
table (nothing for unknown/empty names), the function name, the ANSI reset
code, and `": "`, and finally the original payload bytes. -/
theorem sink_log_slow_path_payload (spaces_per_depth : Nat)
    (fn_color_code : List Char) (d : Int) (msg : LogMsg)
    (h : indentOf spaces_per_depth d ≠ 0 ∨ msg.source.funcname ≠ []) :
    (sink_log spaces_per_depth fn_color_code d msg).payload =
      spec_slow_payload spaces_per_depth fn_color_code d msg := by
  have hcond : ¬ (indentOf spaces_per_depth d = 0 ∧
      ¬ msg.source.funcname.length > 0) := by
    rcases h with h | h
    · intro hc; exact h hc.1
    · intro hc
      exact hc.2 (by simpa [List.length_pos] using h)
  unfold sink_log
  simp only [hcond, if_false]
  rw [indent_buffer_eq]
  unfold spec_slow_payload fn_decoration
  rw [fn_color_start_eq_spec]
  by_cases hfn : msg.source.funcname = []
  · simp [hfn]
  · have hlen : msg.source.funcname.length > 0 := by
      simpa [List.length_pos] using hfn
    simp only [hfn, hlen, if_true, ne_eq, not_false_eq_true, ite_true]
    have : ": ".toList = [':', ' '] := by decide
    rw [this]

/-- A concrete record carrying a function name, for slow-path witnesses. -/
def sampleMsgFn : LogMsg :=
  { logger_name := []
    level := 2
    time := 0
    thread_id := 7
    source := { filename := "example.cpp".toList, line := 20,
                funcname := "leaf_ok".toList }
    color_range_start := 0
    color_range_end := 0
    payload := "work done".toList }

/-- Witness for C5: depth 3, multiplier 4, color `cyan`, a record with a
function name. -/
theorem sink_log_slow_path_payload_witness :
    (indentOf 4 3 ≠ 0 ∨ sampleMsgFn.source.funcname ≠ []) ∧
      (sink_log 4 ("cyan".toList) 3 sampleMsgFn).payload =
        spec_slow_payload 4 ("cyan".toList) 3 sampleMsgFn :=
  ⟨Or.inl (by decide),
    sink_log_slow_path_payload 4 ("cyan".toList) 3 sampleMsgFn
      (Or.inl (by decide))⟩

/-- C6: when the computed indent is 0 and the record carries no function
name, the sink forwards the incoming record completely unmodified. -/
theorem sink_log_fast_path (spaces_per_depth : Nat) (fn_color_code : List Char)
    (d : Int) (msg : LogMsg) (hind : indentOf spaces_per_depth d = 0)
    (hfn : msg.source.funcname = []) :
    sink_log spaces_per_depth fn_color_code d msg = msg := by
  unfold sink_log
  simp [hind, hfn]

/-- Witness for C6: depth 0, multiplier 4, a record with no function name. -/
theorem sink_log_fast_path_witness :
    indentOf 4 0 = 0 ∧ sampleMsg.source.funcname = [] ∧
      sink_log 4 ("cyan".toList) 0 sampleMsg = sampleMsg :=
  ⟨by decide, rfl, sink_log_fast_path 4 ("cyan".toList) 0 sampleMsg (by decide) rfl⟩

/-- C7: on the slow path, the forwarded record is the incoming record with
only the payload replaced by the freshly built indent buffer; logger name,
level, timestamp, thread id, source location and color range markers are
all unchanged. -/
theorem sink_log_slow_path_frame (spaces_per_depth : Nat)
    (fn_color_code : List Char) (d : Int) (msg : LogMsg)
    (h : indentOf spaces_per_depth d ≠ 0 ∨ msg.source.funcname ≠ []) :
    (sink_log spaces_per_depth fn_color_code d msg).logger_name = msg.logger_name ∧
      (sink_log spaces_per_depth fn_color_code d msg).level = msg.level ∧
      (sink_log spaces_per_depth fn_color_code d msg).time = msg.time ∧
      (sink_log spaces_per_depth fn_color_code d msg).thread_id = msg.thread_id ∧
      (sink_log spaces_per_depth fn_color_code d msg).source = msg.source ∧
      (sink_log spaces_per_depth fn_color_code d msg).color_range_start =
        msg.color_range_start ∧
      (sink_log spaces_per_depth fn_color_code d msg).color_range_end =
        msg.color_range_end ∧
      (sink_log spaces_per_depth fn_color_code d msg).payload =
        indent_buffer spaces_per_depth fn_color_code d msg := by
  have hcond : ¬ (indentOf spaces_per_depth d = 0 ∧
      ¬ msg.source.funcname.length > 0) := by
    rcases h with h | h
    · intro hc; exact h hc.1
    · intro hc
      exact hc.2 (by simpa [List.length_pos] using h)
  unfold sink_log
  simp only [hcond, if_false]
  simp

/-- Witness for C7: depth 3, multiplier 4, a record with a function name. -/
theorem sink_log_slow_path_frame_witness :
    (indentOf 4 3 ≠ 0 ∨ sampleMsgFn.source.funcname ≠ []) ∧
      ((sink_log 4 ("cyan".toList) 3 sampleMsgFn).logger_name =
          sampleMsgFn.logger_name ∧
        (sink_log 4 ("cyan".toList) 3 sampleMsgFn).level = sampleMsgFn.level ∧
        (sink_log 4 ("cyan".toList) 3 sampleMsgFn).time = sampleMsgFn.time ∧
        (sink_log 4 ("cyan".toList) 3 sampleMsgFn).thread_id =
          sampleMsgFn.thread_id ∧
        (sink_log 4 ("cyan".toList) 3 sampleMsgFn).source = sampleMsgFn.source ∧
        (sink_log 4 ("cyan".toList) 3 sampleMsgFn).color_range_start =
          sampleMsgFn.color_range_start ∧
        (sink_log 4 ("cyan".toList) 3 sampleMsgFn).color_range_end =
          sampleMsgFn.color_range_end ∧
        (sink_log 4 ("cyan".toList) 3 sampleMsgFn).payload =
          indent_buffer 4 ("cyan".toList) 3 sampleMsgFn) :=
  ⟨Or.inl (by decide),
    sink_log_slow_path_frame 4 ("cyan".toList) 3 sampleMsgFn
      (Or.inl (by decide))⟩

/-! ## 4.5/§6 Install helpers and the default logfmt pattern -/

/-- The default value of the `pattern` parameter of `install_depth_flag`
(transcribed from the raw string literal at depthlog.hpp lines 53-54). -/
def install_depth_flag_default_pattern : String :=
  "ts=\"%Y-%m-%dT%H:%M:%S.%e%z\" level=%l depth=%D tid=%t file=\"%s\" line=%# func=\"%!\" msg=\"%v\""

/-- The pattern `make_logfmt_formatter` sets on the formatter it installs
on the rotating file sink (transcribed from the raw string literal at
depthlog.hpp lines 219-220). -/
def make_logfmt_formatter_pattern : String :=
  "ts=\"%Y-%m-%dT%H:%M:%S.%e%z\" level=%l depth=%D tid=%t file=\"%s\" line=%# func=\"%!\" msg=\"%v\""

/-- C10: the default pattern of `install_depth_flag` and the pattern set
by `make_logfmt_formatter` are character-for-character identical, so both
entry points configure the same logfmt line layout. -/
theorem install_and_logfmt_patterns_identical :
    install_depth_flag_default_pattern = make_logfmt_formatter_pattern := rfl

/-- Modelled from the spec (the host engine's pattern renderer is an
external collaborator, consumed not reimplemented): a pattern token is "a
placeholder in a format string, resolved by the rendering engine to a
field's current value"; the renderer copies every other character
verbatim and substitutes each `%c` token with the field renderer
registered for the single-character flag `c`. -/
def renderPattern (field : Char → List Char) : List Char → List Char
  | [] => []
  | '%' :: c :: rest => field c ++ renderPattern field rest
  | c :: rest => c :: renderPattern field rest

/-- The flag resolution after `install_depth_flag` registered `depth_flag`
for `'D'` via `add_flag<depth_flag>('D')`: flag `D` renders through
`depth_flag::format` at the current thread-local depth; every built-in
flag keeps the engine's own renderer. -/
def installed_fields (builtin : Char → List Char) (msg : LogMsg) (t : Tm)
    (g_depth : Int) : Char → List Char :=
  fun c =>
    if c = 'D' then depth_flag.format {} msg t g_depth [] else builtin c

/-- C8: with the default pattern, the rendered line is exactly the
space-separated key=value pairs, in this order and quoting:
`ts="<timestamp>" level=<l> depth=<decimal depth> tid=<t> file="<s>"
line=<#> func="<!>" msg="<v>"`, where the timestamp is assembled from the
engine's date/time flags as `Y-m-dTH:M:S.e` followed by the zone `z`, and
the depth token is the `depth_flag` output for the current depth. -/
theorem default_pattern_renders_logfmt_line
    (builtin : Char → List Char) (msg : LogMsg) (t : Tm) (g_depth : Int) :
    renderPattern (installed_fields builtin msg t g_depth)
        install_depth_flag_default_pattern.toList =
      "ts=\"".toList ++
        (builtin 'Y' ++ "-".toList ++ builtin 'm' ++ "-".toList ++
          builtin 'd' ++ "T".toList ++ builtin 'H' ++ ":".toList ++
          builtin 'M' ++ ":".toList ++ builtin 'S' ++ ".".toList ++
          builtin 'e' ++ builtin 'z') ++
      "\" level=".toList ++ builtin 'l' ++
      " depth=".toList ++ intDecimal g_depth ++
      " tid=".toList ++ builtin 't' ++
      " file=\"".toList ++ builtin 's' ++
      "\" line=".toList ++ builtin '#' ++
      " func=\"".toList ++ builtin '!' ++
      "\" msg=\"".toList ++ builtin 'v' ++ "\"".toList := by
  simp [renderPattern, installed_fields, install_depth_flag_default_pattern,
    String.toList, depth_flag.format]

end Depthlog
